import Mathlib

/-!
Shallow embedding of `src/chonkie/chunker/token.py` (`TokenChunker`).

Texts are modelled as `List Char` (Python `str` indexing and `len` count code
points, matching `List Char` positions).  Token ids are `Nat`.  The external
tokenizer collaborator is a pair of functions (`encode`, `decode`); the batched
forms `_encode_batch` / `_decode_batch` are modelled as `List.map` of the
per-item functions, which is the capability the spec assumes.  Character
offsets are `Int` because `str.find` returns the sentinel `-1` on failure and
the running cursor of `_create_chunks` is an unbounded Python int.

A fractional `chunk_overlap` is a Python float restricted by the constructor to
values `< 1`; at the values the code manipulates (`chunk_overlap * chunk_size`
with small operands) float arithmetic is exact, so it is modelled by exact
rational arithmetic `ℚ`, with Python `int()` truncation toward zero.
-/

namespace TokenChunkerModel

/-- Python `range(0, n, stride)` for a positive `stride`
(`(n + stride - 1) / stride` is the number of steps, i.e. `⌈n / stride⌉`).
A non-positive `stride` yields `[]`, which matches Python for negative steps;
the chunker only ever calls this with `stride ≥ 1` (see `Config.Valid`). -/
def pyRangeStep (n stride : Nat) : List Nat :=
  (List.range ((n + stride - 1) / stride)).map (fun i => i * stride)

/-- The characters Python `str.strip()` removes (the Unicode whitespace set
used by `str.isspace`). -/
def isPySpace (c : Char) : Bool :=
  c.val = 0x09 || c.val = 0x0a || c.val = 0x0b || c.val = 0x0c || c.val = 0x0d ||
  c.val = 0x1c || c.val = 0x1d || c.val = 0x1e || c.val = 0x1f || c.val = 0x20 ||
  c.val = 0x85 || c.val = 0xa0 || c.val = 0x1680 ||
  (0x2000 ≤ c.val && c.val ≤ 0x200a) || c.val = 0x2028 || c.val = 0x2029 ||
  c.val = 0x202f || c.val = 0x205f || c.val = 0x3000

/-- Python `text.strip()`: remove leading and trailing whitespace. -/
def pyStrip (s : List Char) : List Char :=
  ((s.dropWhile isPySpace).reverse.dropWhile isPySpace).reverse

/-- Python `hay.find(needle, start)`: the least index `i ≥ start` (with a
negative `start` interpreted like a slice index, counted from the end and
clamped at 0) such that `needle` occurs in `hay` at position `i`; `-1`
when there is no such occurrence. -/
def strFind (hay needle : List Char) (start : Int) : Int :=
  let s : Nat := if start < 0 then ((hay.length : Int) + start).toNat else start.toNat
  match (List.range (hay.length + 1)).filter
      (fun i => decide (s ≤ i) && ((hay.drop i).take needle.length == needle)) with
  | [] => -1
  | i :: _ => (i : Int)

/-- Python `int(q)` on an exact rational value: truncation toward zero.
(Lean's `Int` division `/` is Euclidean division; on non-negative operands it
agrees with truncation, so the negative case is routed through negation.) -/
def pyTrunc (q : ℚ) : Int :=
  if q.num < 0 then -((-q.num) / (q.den : Int)) else q.num / (q.den : Int)

/-- The configuration state stored by `TokenChunker.__init__`:
`self.chunk_size` and the normalized integer `self.chunk_overlap`. -/
structure Config where
  chunkSize : Int
  chunkOverlap : Int
deriving DecidableEq, Repr

/-- The constructor's `chunk_overlap` argument: a Python `int` or a Python
`float` (the two `isinstance` branches of `__init__`). -/
inductive OverlapArg where
  | int (i : Int)
  | frac (q : ℚ)

/-- `TokenChunker.__init__` (lines 20-50): validation and overlap
normalization.  `ValueError` is modelled as `Except.error` with the
corresponding message. -/
def tokenChunkerInit (chunkSize : Int) (chunkOverlap : OverlapArg) : Except String Config :=
  if chunkSize ≤ 0 then Except.error "chunk_size must be positive"
  else
    match chunkOverlap with
    | OverlapArg.int i =>
      if i ≥ chunkSize then Except.error "chunk_overlap must be less than chunk_size"
      else Except.ok { chunkSize := chunkSize, chunkOverlap := i }
    | OverlapArg.frac q =>
      if q ≥ 1 then Except.error "chunk_overlap must be less than 1"
      else Except.ok { chunkSize := chunkSize, chunkOverlap := pyTrunc (q * (chunkSize : ℚ)) }

/-- The configurations reachable through `tokenChunkerInit`:
a positive chunk size and an overlap strictly below it (the overlap may be
negative, which the constructor does not reject). -/
def Config.Valid (c : Config) : Prop :=
  1 ≤ c.chunkSize ∧ c.chunkOverlap < c.chunkSize

instance (c : Config) : Decidable c.Valid :=
  decidable_of_iff (1 ≤ c.chunkSize ∧ c.chunkOverlap < c.chunkSize) Iff.rfl

/-- The external tokenizer capability.  `_encode_batch` / `_decode_batch` are
`List.map` of these. -/
structure Tokenizer where
  encode : List Char → List Nat
  decode : List Nat → List Char

/-- The `Chunk` output record (`chonkie.types.Chunk`). -/
structure Chunk where
  text : List Char
  startIndex : Int
  endIndex : Int
  tokenCount : Nat
deriving DecidableEq, Repr

/-- The overlap suffix taken in `_create_chunks` (lines 63-66):
`token_group[-chunk_overlap:] if len(token_group) > chunk_overlap else
token_group`.  Only evaluated when `chunk_overlap > 0`. -/
def overlapSlice (cfg : Config) (g : List Nat) : List Nat :=
  if (g.length : Int) > cfg.chunkOverlap then g.drop (g.length - cfg.chunkOverlap.toNat) else g

/-- The chunk-building loop of `_create_chunks` (lines 72-87): walk the three
lists in lockstep (Python `zip` stops at the shortest) carrying the cursor
`current_index`. -/
def createChunksLoop : List (List Char) → List Nat → List Nat → Int → List Chunk
  | t :: ts, ov :: ovs, tc :: tcs, cur =>
    { text := t, startIndex := cur, endIndex := cur + (t.length : Int), tokenCount := tc }
      :: createChunksLoop ts ovs tcs (cur + (t.length : Int) - (ov : Int))
  | [], _, _, _ => []
  | _ :: _, [], _, _ => []
  | _ :: _, _ :: _, [], _ => []

/-- `TokenChunker._create_chunks` (lines 52-87): Strategy A offset
reconstruction via decoded overlap-suffix lengths. -/
def createChunks (cfg : Config) (tk : Tokenizer)
    (chunkTexts : List (List Char)) (tokenGroups : List (List Nat))
    (tokenCounts : List Nat) : List Chunk :=
  let overlapLengths :=
    if cfg.chunkOverlap > 0 then
      tokenGroups.map (fun g => (tk.decode (overlapSlice cfg g)).length)
    else
      List.replicate tokenGroups.length 0
  createChunksLoop chunkTexts overlapLengths tokenCounts 0

/-- `TokenChunker._token_group_generator` (lines 118-122); the inline list
comprehension in `chunk` (lines 106-107) is the identical stride walk
`tokens[start : min(start + chunk_size, len(tokens))]` over
`range(0, len(tokens), chunk_size - chunk_overlap)`. -/
def tokenGroupGenerator (cfg : Config) (tokens : List Nat) : List (List Nat) :=
  let stride := (cfg.chunkSize - cfg.chunkOverlap).toNat
  (pyRangeStep tokens.length stride).map
    (fun start => (tokens.drop start).take (min (start + cfg.chunkSize.toNat) tokens.length - start))

/-- `TokenChunker.chunk` (lines 89-116), additionally reporting the number of
tokenizer invocations it makes: one `_encode`, one `_decode_batch` over the
token groups, and one more `_decode_batch` inside `_create_chunks` when
`chunk_overlap > 0`; zero when the stripped text is empty. -/
def chunkWithCallCount (cfg : Config) (tk : Tokenizer) (text : List Char) :
    List Chunk × Nat :=
  if pyStrip text = [] then ([], 0)
  else
    let textTokens := tk.encode text
    let tokenGroups := tokenGroupGenerator cfg textTokens
    let tokenCounts := tokenGroups.map List.length
    let chunkTexts := tokenGroups.map tk.decode
    (createChunks cfg tk chunkTexts tokenGroups tokenCounts,
      2 + (if cfg.chunkOverlap > 0 then 1 else 0))

/-- `TokenChunker.chunk`: the chunk list returned to the caller. -/
def chunk (cfg : Config) (tk : Tokenizer) (text : List Char) : List Chunk :=
  (chunkWithCallCount cfg tk text).1

/-- The index-pair loop of `_process_batch` (lines 131-137): Strategy B,
searching each decoded text in the full source text from the running cursor. -/
def processBatchLoop (fullText : List Char) : List (List Char) → Int → List (Int × Int)
  | [], _ => []
  | t :: ts, cur =>
    let s := strFind fullText t cur
    let e := s + (t.length : Int)
    (s, e) :: processBatchLoop fullText ts e

/-- The final `zip` comprehension of `_process_batch` (lines 139-142). -/
def zipToChunks : List (List Char) → List (Int × Int) → List (List Nat) → List Chunk
  | t :: ts, p :: ps, tl :: tls =>
    { text := t, startIndex := p.1, endIndex := p.2, tokenCount := tl.length }
      :: zipToChunks ts ps tls
  | [], _, _ => []
  | _ :: _, [], _ => []
  | _ :: _, _ :: _, [] => []

/-- `TokenChunker._process_batch` (lines 124-142): Strategy B offset
reconstruction.  Not invoked by `chunk` or `chunk_batch`. -/
def processBatch (tk : Tokenizer) (chunks : List (List Nat × Int × Int))
    (fullText : List Char) : List Chunk :=
  let tokenLists := chunks.map (fun c => c.1)
  let texts := tokenLists.map tk.decode
  let indexPairs := processBatchLoop fullText texts 0
  zipToChunks texts indexPairs tokenLists

/-- The per-text loop body of `_process_text_batch` (lines 150-168): skip a
text whose token list is empty, otherwise window, batch-decode and run
`_create_chunks`. -/
def processTokens (cfg : Config) (tk : Tokenizer) (tokens : List Nat) : List Chunk :=
  if tokens = [] then []
  else
    let tokenGroups := tokenGroupGenerator cfg tokens
    let tokenCounts := tokenGroups.map List.length
    let chunkTexts := tokenGroups.map tk.decode
    createChunks cfg tk chunkTexts tokenGroups tokenCounts

/-- `TokenChunker._process_text_batch` (lines 144-170). -/
def processTextBatch (cfg : Config) (tk : Tokenizer) (texts : List (List Char)) :
    List (List Chunk) :=
  let tokensList := texts.map tk.encode
  tokensList.map (processTokens cfg tk)

/-- `TokenChunker.chunk_batch` (lines 172-193): optional partition of the
texts into contiguous mini-batches of `batch_size`
(`texts[i : min(i + batch_size, len(texts))]` over
`range(0, len(texts), batch_size)`), concatenating the per-batch results. -/
def chunkBatch (cfg : Config) (tk : Tokenizer) (texts : List (List Char))
    (batchSize : Option Int) : List (List Chunk) :=
  match batchSize with
  | some b =>
    ((pyRangeStep texts.length b.toNat).map
      (fun i => processTextBatch cfg tk
        ((texts.drop i).take (min (i + b.toNat) texts.length - i)))).flatten
  | none => processTextBatch cfg tk texts

/-! ### Helper lemmas about the embedded definitions -/

/-- `chunk` written without the call counter. -/
lemma chunk_eq (cfg : Config) (tk : Tokenizer) (text : List Char) :
    chunk cfg tk text =
      if pyStrip text = [] then []
      else
        createChunks cfg tk ((tokenGroupGenerator cfg (tk.encode text)).map tk.decode)
          (tokenGroupGenerator cfg (tk.encode text))
          ((tokenGroupGenerator cfg (tk.encode text)).map List.length) := by
  unfold chunk chunkWithCallCount
  split <;> rfl

/-- The head chunk produced by the `_create_chunks` loop starts at the cursor. -/
lemma createChunksLoop_head_start :
    ∀ (ts : List (List Char)) (ovs tcs : List Nat) (cur : Int) (c : Chunk)
      (rest : List Chunk),
      createChunksLoop ts ovs tcs cur = c :: rest → c.startIndex = cur := by
  intro ts ovs tcs cur c rest h
  match ts, ovs, tcs with
  | [], _, _ => simp [createChunksLoop] at h
  | _ :: _, [], _ => simp [createChunksLoop] at h
  | _ :: _, _ :: _, [] => simp [createChunksLoop] at h
  | t :: ts, ov :: ovs, tc :: tcs =>
    simp only [createChunksLoop, List.cons.injEq] at h
    rw [← h.1]

/-- Each chunk built by the `_create_chunks` loop spans exactly the length of
its text. -/
lemma createChunksLoop_span :
    ∀ (ts : List (List Char)) (ovs tcs : List Nat) (cur : Int) (c : Chunk),
      c ∈ createChunksLoop ts ovs tcs cur →
      c.endIndex - c.startIndex = (c.text.length : Int) ∧ c.startIndex ≤ c.endIndex := by
  intro ts
  induction ts with
  | nil => intro ovs tcs cur c hc; simp [createChunksLoop] at hc
  | cons t ts ih =>
    intro ovs tcs cur c hc
    cases ovs with
    | nil => simp [createChunksLoop] at hc
    | cons ov ovs =>
      cases tcs with
      | nil => simp [createChunksLoop] at hc
      | cons tc tcs =>
        simp only [createChunksLoop, List.mem_cons] at hc
        rcases hc with rfl | hc
        · refine ⟨?_, ?_⟩
          · show cur + (t.length : Int) - cur = (t.length : Int)
            omega
          · show cur ≤ cur + (t.length : Int)
            omega
        · exact ih ovs tcs _ c hc

/-- When every overlap length is bounded by the corresponding text length, the
`_create_chunks` loop never moves the cursor backwards. -/
lemma createChunksLoop_mono :
    ∀ (ts : List (List Char)) (ovs tcs : List Nat) (cur : Int),
      List.Forall₂ (fun (t : List Char) (ov : Nat) => ov ≤ t.length) ts ovs →
      (∀ c ∈ createChunksLoop ts ovs tcs cur, cur ≤ c.startIndex) ∧
      List.Chain' (fun a b => a.startIndex ≤ b.startIndex)
        (createChunksLoop ts ovs tcs cur) := by
  intro ts ovs tcs cur h
  induction h generalizing tcs cur with
  | nil => simp [createChunksLoop]
  | @cons t ov ts' ovs' hto htail ih =>
    cases tcs with
    | nil => simp [createChunksLoop]
    | cons tc tcs' =>
      have hov : (ov : Int) ≤ (t.length : Int) := by exact_mod_cast hto
      obtain ⟨ih1, ih2⟩ := ih tcs' (cur + (t.length : Int) - (ov : Int))
      constructor
      · intro c hc
        simp only [createChunksLoop, List.mem_cons] at hc
        rcases hc with rfl | hc
        · show cur ≤ cur
          exact le_refl cur
        · have := ih1 c hc
          omega
      · simp only [createChunksLoop]
        rw [List.chain'_cons']
        refine ⟨?_, ih2⟩
        intro y hy
        have hym := List.mem_of_mem_head? hy
        have := ih1 y hym
        show cur ≤ y.startIndex
        omega

/-- With all-zero overlap lengths the `_create_chunks` loop lays chunks
end-to-end. -/
lemma createChunksLoop_contig :
    ∀ (ts : List (List Char)) (n : Nat) (tcs : List Nat) (cur : Int),
      List.Chain' (fun a b => b.startIndex = a.endIndex)
        (createChunksLoop ts (List.replicate n 0) tcs cur) := by
  intro ts
  induction ts with
  | nil => intro n tcs cur; simp [createChunksLoop]
  | cons t ts ih =>
    intro n tcs cur
    cases n with
    | zero => simp [createChunksLoop]
    | succ n =>
      cases tcs with
      | nil => simp [List.replicate_succ, createChunksLoop]
      | cons tc tcs =>
        simp only [List.replicate_succ, createChunksLoop]
        rw [List.chain'_cons']
        refine ⟨?_, ih n tcs _⟩
        intro y hy
        cases hr : createChunksLoop ts (List.replicate n 0) tcs
            (cur + (t.length : Int) - ((0 : Nat) : Int)) with
        | nil => rw [hr] at hy; simp at hy
        | cons c restc =>
          rw [hr] at hy
          have hyc : y = c := by
            have := hy
            simp only [List.head?_cons, Option.mem_def, Option.some.injEq] at this
            exact this.symm
          have hst := createChunksLoop_head_start _ _ _ _ _ _ hr
          have hys : y.startIndex = cur + (t.length : Int) - ((0 : Nat) : Int) := by
            rw [hyc, hst]
          show y.startIndex = cur + (t.length : Int)
          omega

/-- Stripping a whitespace-only text gives the empty text. -/
lemma pyStrip_eq_nil (text : List Char) (h : ∀ c ∈ text, isPySpace c = true) :
    pyStrip text = [] := by
  unfold pyStrip
  rw [List.dropWhile_eq_nil_iff.mpr h]
  rfl

/-- The windower produces nothing from an empty token sequence. -/
lemma tokenGroupGenerator_nil (cfg : Config) : tokenGroupGenerator cfg [] = [] := by
  unfold tokenGroupGenerator pyRangeStep
  have h : ∀ s : Nat, (s - 1) / s = 0 := by
    intro s
    cases s with
    | zero => rfl
    | succ s => exact Nat.div_eq_of_lt (by omega)
  simp [h]

/-- For a constructible configuration the stride is at least 1. -/
lemma stride_pos (cfg : Config) (hv : cfg.Valid) :
    1 ≤ (cfg.chunkSize - cfg.chunkOverlap).toNat := by
  obtain ⟨h1, h2⟩ := hv
  omega

/-- The windower produces at least one group from a non-empty token sequence
(valid configuration). -/
lemma tokenGroupGenerator_ne_nil (cfg : Config) (hv : cfg.Valid) (tokens : List Nat)
    (h : tokens ≠ []) : tokenGroupGenerator cfg tokens ≠ [] := by
  unfold tokenGroupGenerator pyRangeStep
  intro hcon
  have hs := stride_pos cfg hv
  have hn : 0 < tokens.length := List.length_pos.mpr h
  rw [List.map_eq_nil_iff, List.map_eq_nil_iff, List.range_eq_nil] at hcon
  have h1 : 1 ≤ (tokens.length + (cfg.chunkSize - cfg.chunkOverlap).toNat - 1) /
      (cfg.chunkSize - cfg.chunkOverlap).toNat :=
    (Nat.one_le_div_iff (by omega)).mpr (by omega)
  omega

/-- `_create_chunks` on a non-empty group list yields a non-empty chunk list. -/
lemma createChunks_ne_nil (cfg : Config) (tk : Tokenizer) (g : List Nat)
    (gr : List (List Nat)) :
    createChunks cfg tk ((g :: gr).map tk.decode) (g :: gr)
      ((g :: gr).map List.length) ≠ [] := by
  unfold createChunks
  split <;> simp [createChunksLoop]

/-- The `_process_text_batch` loop body yields a non-empty chunk list whenever
the token list is non-empty (valid configuration). -/
lemma processTokens_ne_nil (cfg : Config) (tk : Tokenizer) (hv : cfg.Valid)
    (tokens : List Nat) (h : tokens ≠ []) : processTokens cfg tk tokens ≠ [] := by
  unfold processTokens
  rw [if_neg h]
  obtain ⟨g, gr, hg⟩ := List.exists_cons_of_ne_nil (tokenGroupGenerator_ne_nil cfg hv tokens h)
  rw [hg]
  exact createChunks_ne_nil cfg tk g gr

/-- `Forall₂` between two maps over the same list. -/
lemma forall₂_map_pair {α β γ : Type} (R : β → γ → Prop) (f : α → β) (g : α → γ) :
    ∀ (l : List α), (∀ x ∈ l, R (f x) (g x)) → List.Forall₂ R (l.map f) (l.map g) := by
  intro l
  induction l with
  | nil => intro _; simp
  | cons a t ih =>
    intro h
    exact List.Forall₂.cons (h a (by simp)) (ih (fun x hx => h x (by simp [hx])))

/-- `Forall₂` between a list and a map over it. -/
lemma forall₂_map_right {α β : Type} (R : α → β → Prop) (g : α → β) :
    ∀ (l : List α), (∀ x ∈ l, R x (g x)) → List.Forall₂ R l (l.map g) := by
  intro l
  induction l with
  | nil => intro _; simp
  | cons a t ih =>
    intro h
    exact List.Forall₂.cons (h a (by simp)) (ih (fun x hx => h x (by simp [hx])))

/-- `Forall₂` against a replicated zero list. -/
lemma forall₂_replicate_zero :
    ∀ (ts : List (List Char)),
      List.Forall₂ (fun (t : List Char) (ov : Nat) => ov ≤ t.length) ts
        (List.replicate ts.length 0) := by
  intro ts
  induction ts with
  | nil => simp
  | cons t ts ih => exact List.Forall₂.cons (Nat.zero_le _) ih

/-- Unfolding `range(0, n, s)` one step for positive `n` and `s`. -/
lemma pyRangeStep_succ (n s : Nat) (hs : 0 < s) (hn : 0 < n) :
    pyRangeStep n s = 0 :: (pyRangeStep (n - s) s).map (fun i => i + s) := by
  unfold pyRangeStep
  have hc : (n + s - 1) / s = (n - s + s - 1) / s + 1 := by
    rcases le_or_lt s n with hle | hlt
    · have h1 : n - s + s - 1 = n - 1 := by omega
      have h2 : n + s - 1 = (n - 1) + s := by omega
      rw [h1, h2, Nat.add_div_right _ hs]
    · have h1 : n - s = 0 := by omega
      have h2 : (0 + s - 1) / s = 0 := Nat.div_eq_of_lt (by omega)
      rw [h1, h2]
      exact Nat.div_eq_of_lt_le (by omega) (by omega)
  rw [hc, List.range_succ_eq_map]
  simp only [List.map_cons, List.map_map, Nat.zero_mul]
  refine congrArg (List.cons 0) ?_
  apply List.map_congr_left
  intro i hi
  simp [Function.comp, Nat.succ_mul]

/-- Partitioning a list into contiguous `range(0, len, b)`-slices and
concatenating recovers the list. -/
lemma pyRangeStep_slices {α : Type} (b : Nat) (hb : 0 < b) :
    ∀ (n : Nat) (l : List α), l.length = n →
      ((pyRangeStep l.length b).map
        (fun i => (l.drop i).take (min (i + b) l.length - i))).flatten = l := by
  intro n
  induction n using Nat.strong_induction_on with
  | _ n ih =>
    intro l hl
    subst hl
    cases l with
    | nil =>
      have h0 : (0 + b - 1) / b = 0 := Nat.div_eq_of_lt (by omega)
      simp [pyRangeStep, h0]
    | cons a t =>
      have hlen : 0 < (a :: t).length := by simp
      rw [pyRangeStep_succ _ _ hb hlen, List.map_cons, List.map_map, List.flatten_cons]
      have hhead : ((a :: t).drop 0).take (min (0 + b) (a :: t).length - 0) =
          (a :: t).take b := by
        simp only [List.drop_zero, Nat.zero_add, Nat.sub_zero]
        exact List.take_eq_take.mpr (by omega)
      have htail : ((pyRangeStep ((a :: t).length - b) b).map
          ((fun i => ((a :: t).drop i).take (min (i + b) (a :: t).length - i)) ∘
            (fun i => i + b))) =
          (pyRangeStep (((a :: t).drop b).length) b).map
            (fun i => (((a :: t).drop b).drop i).take
              (min (i + b) ((a :: t).drop b).length - i)) := by
        rw [List.length_drop]
        apply List.map_congr_left
        intro i hi
        simp only [Function.comp_apply]
        rw [List.drop_drop]
        have h1 : b + i = i + b := by omega
        have h2 : min (i + b + b) (a :: t).length - (i + b) =
            min (i + b) ((a :: t).length - b) - i := by omega
        rw [h1, h2]
      rw [hhead, htail,
        ih (((a :: t).drop b).length) (by rw [List.length_drop]; omega) _ rfl]
      exact List.take_append_drop b (a :: t)

/-- Normalizing a fractional overlap below 1 always yields an integer overlap
below the chunk size. -/
lemma pyTrunc_lt (q : ℚ) (cs : Int) (hcs : 0 < cs) (hq : q < 1) :
    pyTrunc (q * (cs : ℚ)) < cs := by
  set x : ℚ := q * (cs : ℚ) with hx
  have hxlt : x < (cs : ℚ) := by
    rw [hx]
    calc q * (cs : ℚ) < 1 * (cs : ℚ) := by
          exact mul_lt_mul_of_pos_right hq (by exact_mod_cast hcs)
      _ = (cs : ℚ) := one_mul _
  unfold pyTrunc
  by_cases hneg : x.num < 0
  · rw [if_pos hneg]
    have h1 : 0 ≤ (-x.num) / (x.den : Int) :=
      Int.ediv_nonneg (by omega) (by exact_mod_cast Nat.zero_le x.den)
    omega
  · rw [if_neg hneg]
    have hfd : x.num / (x.den : Int) = ⌊x⌋ := (Rat.floor_def).symm
    rw [hfd]
    exact Int.floor_lt.mpr (by exact_mod_cast hxlt)

/-! ### Concrete tokenizers used as test inputs -/

/-- A tokenizer whose decode of the overlap suffix `[1]` is a two-character
text occurring later in the source: decoding is not compositional, so the
Strategy A cursor estimate and a Strategy B substring search disagree. -/
def tkC1x : Tokenizer where
  encode := fun t => if t = ['a', 'b', 'b', 'a'] then [0, 1] else []
  decode := fun l => if l = [0, 1] then ['a', 'b'] else if l = [1] then ['b', 'a'] else []

/-- A tokenizer used for a minimal non-whitespace text. -/
def tkC1w : Tokenizer where
  encode := fun t => if t = ['a'] then [0] else []
  decode := fun l => if l = [0] then ['a'] else []

/-- A tokenizer decoding token `5` to a text absent from the source. -/
def tkC2x : Tokenizer where
  encode := fun _ => []
  decode := fun l => if l = [5] then ['z', 'z'] else []

/-- An adversarial tokenizer: the whole group decodes to the empty text while
its overlap suffix decodes to a longer text, driving the Strategy A cursor
negative. -/
def tkC5x : Tokenizer where
  encode := fun t => if t = ['a', 'b'] then [0, 1] else []
  decode := fun l => if l = [0, 1] then [] else if l = [1] then ['x', 'y', 'z'] else []

/-- A length-preserving tokenizer (each token decodes to one character), so
decoded overlap suffixes are never longer than the decoded group. -/
def tkC5w : Tokenizer where
  encode := fun _ => [0, 1]
  decode := fun l => l.map (fun _ => 'z')

/-- A trivial tokenizer; never reached on whitespace-only input. -/
def tkC6w : Tokenizer where
  encode := fun _ => []
  decode := fun _ => []

/-- A two-token tokenizer with single-character decodes. -/
def tkC7w : Tokenizer where
  encode := fun t => if t = ['a', 'b'] then [0, 1] else []
  decode := fun l => if l = [0] then ['a'] else if l = [1] then ['b'] else []

/-- A per-character tokenizer for batching tests. -/
def tkC8w : Tokenizer where
  encode := fun t => if t = ['a'] then [0] else [1]
  decode := fun l => if l = [0] then ['a'] else ['b']

/-- A one-token tokenizer. -/
def tkC9w : Tokenizer where
  encode := fun t => if t = ['a'] then [0] else []
  decode := fun l => if l = [0] then ['a'] else []

/-- A tokenizer that encodes the single-space text to a non-empty token
sequence and decodes it back to the space. -/
def tkC10x : Tokenizer where
  encode := fun t => if t = [' '] then [0] else []
  decode := fun l => if l = [0] then [' '] else []

/-! ### Claim theorems -/

/-- Claim C1, counterexample: with `chunk_size = 2`, `chunk_overlap = 1` and
the tokenizer `tkC1x`, `chunk_batch(["abba"])` returns exactly
`[chunk("abba")]` (the Strategy A offsets, second chunk at `(0, 2)`), and not
the Strategy B offsets that `_process_batch` computes for the same token
groups (second chunk at `(2, 4)`): the batched entry point does not use
Strategy B. -/
theorem claim_C1_counterexample :
    chunkBatch ⟨2, 1⟩ tkC1x [['a', 'b', 'b', 'a']] none =
      [chunk ⟨2, 1⟩ tkC1x ['a', 'b', 'b', 'a']] ∧
    chunkBatch ⟨2, 1⟩ tkC1x [['a', 'b', 'b', 'a']] none ≠
      [processBatch tkC1x [([0, 1], 0, 0), ([1], 0, 0)] ['a', 'b', 'b', 'a']] := by
  exact ⟨by decide, by decide⟩

/-- Claim C1 (amended): both entry points compute offsets with Strategy A
(`_process_text_batch` calls `_create_chunks`, and `_process_batch` — the
Strategy B code — is never invoked), so for every text that is not
whitespace-only, `chunk_batch([text])` returns exactly `[chunk(text)]`; the
two entry points never produce different offsets for such a text. -/
theorem claim_C1_both_paths_strategyA (cfg : Config) (tk : Tokenizer)
    (text : List Char) (h : pyStrip text ≠ []) :
    chunkBatch cfg tk [text] none = [chunk cfg tk text] := by
  rw [chunk_eq, if_neg h]
  show [processTokens cfg tk (tk.encode text)] = _
  congr 1
  unfold processTokens
  by_cases he : tk.encode text = []
  · rw [if_pos he, he, tokenGroupGenerator_nil]
    simp [createChunks, createChunksLoop]
  · rw [if_neg he]

/-- Claim C1 witness: a concrete non-whitespace text on which the two entry
points agree. -/
theorem claim_C1_witness :
    chunkBatch ⟨1, 0⟩ tkC1w [['a']] none = [chunk ⟨1, 0⟩ tkC1w ['a']] :=
  claim_C1_both_paths_strategyA ⟨1, 0⟩ tkC1w ['a'] (by decide)

/-- Claim C2: evaluating `_process_batch` at a failing input. When the
decoded text `"zz"` of token group `[5]` has no occurrence in the source
`"ab"`, the code does not raise anything: `str.find` returns the sentinel
`-1` unchecked, and a `Chunk` with `start_index = -1 < 0` is returned to
the caller. -/
theorem claim_C2_find_sentinel_chunk :
    processBatch tkC2x [([5], 0, 0)] ['a', 'b'] = [⟨['z', 'z'], -1, 1, 1⟩] ∧
    (⟨['z', 'z'], -1, 1, 1⟩ : Chunk).startIndex < 0 := by
  exact ⟨by decide, by decide⟩

/-- Claim C3, counterexample: `chunk_size = 4`, `chunk_overlap = 2`
(a valid configuration, stride 2) on the 3-token sequence `[0, 1, 2]`
(so `0 < n = 3 ≤ chunk_size = 4` but `stride = 2 < n`): the windower
produces two groups, not one. -/
theorem claim_C3_counterexample :
    Config.Valid ⟨4, 2⟩ ∧ (0 : Nat) < 3 ∧ (3 : Int) ≤ 4 ∧
    tokenGroupGenerator ⟨4, 2⟩ [0, 1, 2] = [[0, 1, 2], [2]] ∧
    tokenGroupGenerator ⟨4, 2⟩ [0, 1, 2] ≠ [[0, 1, 2]] := by
  exact ⟨by decide, by decide, by decide, by decide, by decide⟩

/-- Claim C3 (amended): for every valid configuration with a non-negative
overlap and every token sequence of length `n` with
`0 < n ≤ stride = chunk_size - chunk_overlap`, the windower produces exactly
one TokenGroup, spanning the whole sequence.  (When `stride < n ≤ chunk_size`
the first group still spans the whole sequence but further groups follow.) -/
theorem claim_C3_single_group (cfg : Config) (tokens : List Nat)
    (hv : cfg.Valid) (hov : 0 ≤ cfg.chunkOverlap) (hn : 0 < tokens.length)
    (hns : (tokens.length : Int) ≤ cfg.chunkSize - cfg.chunkOverlap) :
    tokenGroupGenerator cfg tokens = [tokens] := by
  obtain ⟨hcs, hoc⟩ := hv
  simp only [tokenGroupGenerator, pyRangeStep]
  have hles : tokens.length ≤ (cfg.chunkSize - cfg.chunkOverlap).toNat := by omega
  have hs1 : 1 ≤ (cfg.chunkSize - cfg.chunkOverlap).toNat := by omega
  have hcount : (tokens.length + (cfg.chunkSize - cfg.chunkOverlap).toNat - 1) /
      (cfg.chunkSize - cfg.chunkOverlap).toNat = 1 :=
    Nat.div_eq_of_lt_le (by omega) (by omega)
  have hcsN : tokens.length ≤ cfg.chunkSize.toNat := by omega
  have h01 : List.range 1 = [0] := rfl
  rw [hcount, h01, List.map_cons, List.map_nil, List.map_cons, List.map_nil]
  rw [Nat.zero_mul, List.drop_zero, Nat.zero_add, Nat.sub_zero]
  rw [min_eq_right hcsN, List.take_length]

/-- Claim C3 witness: one token with stride 2 gives the single spanning
group. -/
theorem claim_C3_witness : tokenGroupGenerator ⟨4, 2⟩ [7] = [[7]] :=
  claim_C3_single_group ⟨4, 2⟩ [7] (by decide) (by decide) (by decide) (by decide)

/-- Claim C4, counterexample: `TokenChunker(chunk_size=2, chunk_overlap=-1)`
constructs successfully — no `ValueError` is raised — and the stored
normalized overlap is `-1 < 0`: negative overlaps are not rejected. -/
theorem claim_C4_counterexample :
    tokenChunkerInit 2 (OverlapArg.int (-1)) = Except.ok ⟨2, -1⟩ ∧
    (⟨2, -1⟩ : Config).chunkOverlap < 0 := by
  exact ⟨rfl, by decide⟩

/-- `tokenChunkerInit` on an integer overlap, with the match reduced. -/
lemma tokenChunkerInit_int (cs i : Int) :
    tokenChunkerInit cs (OverlapArg.int i) =
      if cs ≤ 0 then Except.error "chunk_size must be positive"
      else if i ≥ cs then Except.error "chunk_overlap must be less than chunk_size"
      else Except.ok ⟨cs, i⟩ := by
  unfold tokenChunkerInit
  split <;> rfl

/-- `tokenChunkerInit` on a fractional overlap, with the match reduced. -/
lemma tokenChunkerInit_frac (cs : Int) (q : ℚ) :
    tokenChunkerInit cs (OverlapArg.frac q) =
      if cs ≤ 0 then Except.error "chunk_size must be positive"
      else if q ≥ 1 then Except.error "chunk_overlap must be less than 1"
      else Except.ok ⟨cs, pyTrunc (q * (cs : ℚ))⟩ := by
  unfold tokenChunkerInit
  split <;> rfl

/-- Claim C4 (amended): construction raises exactly when `chunk_size <= 0`,
or an integer `chunk_overlap >= chunk_size`, or a fractional
`chunk_overlap >= 1.0`; every configuration that constructs successfully
satisfies `chunk_overlap < chunk_size` (the normalized overlap may, however,
be negative — a negative argument is accepted, not rejected). -/
theorem claim_C4_init_spec (cs : Int) :
    (∀ i : Int,
        (∃ c, tokenChunkerInit cs (OverlapArg.int i) = Except.ok c) ↔ 0 < cs ∧ i < cs) ∧
    (∀ q : ℚ,
        (∃ c, tokenChunkerInit cs (OverlapArg.frac q) = Except.ok c) ↔ 0 < cs ∧ q < 1) ∧
    (∀ ov c, tokenChunkerInit cs ov = Except.ok c →
        1 ≤ c.chunkSize ∧ c.chunkOverlap < c.chunkSize) := by
  refine ⟨?_, ?_, ?_⟩
  · intro i
    rw [tokenChunkerInit_int]
    by_cases h0 : cs ≤ 0
    · rw [if_pos h0]
      simp
      omega
    · rw [if_neg h0]
      by_cases hi : i ≥ cs
      · rw [if_pos hi]
        simp
        omega
      · rw [if_neg hi]
        simp
        omega
  · intro q
    rw [tokenChunkerInit_frac]
    by_cases h0 : cs ≤ 0
    · rw [if_pos h0]
      simp
      omega
    · rw [if_neg h0]
      by_cases hq : q ≥ 1
      · rw [if_pos hq]
        constructor
        · intro h
          obtain ⟨c, hc⟩ := h
          exact absurd hc (by simp)
        · intro h
          exact absurd hq (not_le.mpr h.2)
      · rw [if_neg hq]
        constructor
        · intro _
          exact ⟨by omega, not_le.mp hq⟩
        · intro _
          exact ⟨_, rfl⟩
  · intro ov c h
    cases ov with
    | int i =>
      rw [tokenChunkerInit_int] at h
      by_cases h0 : cs ≤ 0
      · rw [if_pos h0] at h
        exact absurd h (by simp)
      · rw [if_neg h0] at h
        by_cases hi : i ≥ cs
        · rw [if_pos hi] at h
          exact absurd h (by simp)
        · rw [if_neg hi] at h
          have hc : c = ⟨cs, i⟩ := by
            have := h
            simp only [Except.ok.injEq] at this
            exact this.symm
          rw [hc]
          exact ⟨by show 1 ≤ cs; omega, by show i < cs; omega⟩
    | frac q =>
      rw [tokenChunkerInit_frac] at h
      by_cases h0 : cs ≤ 0
      · rw [if_pos h0] at h
        exact absurd h (by simp)
      · rw [if_neg h0] at h
        by_cases hq : q ≥ 1
        · rw [if_pos hq] at h
          exact absurd h (by simp)
        · rw [if_neg hq] at h
          have hc : c = ⟨cs, pyTrunc (q * (cs : ℚ))⟩ := by
            have := h
            simp only [Except.ok.injEq] at this
            exact this.symm
          rw [hc]
          refine ⟨?_, ?_⟩
          · show 1 ≤ cs
            omega
          · show pyTrunc (q * (cs : ℚ)) < cs
            exact pyTrunc_lt q cs (by omega) (not_le.mp hq)

/-- Claim C4 witness: the configuration `(chunk_size=3, chunk_overlap=1)`
constructs and is valid. -/
theorem claim_C4_witness :
    1 ≤ (⟨3, 1⟩ : Config).chunkSize ∧
    (⟨3, 1⟩ : Config).chunkOverlap < (⟨3, 1⟩ : Config).chunkSize :=
  (claim_C4_init_spec 3).2.2 (OverlapArg.int 1) ⟨3, 1⟩ rfl

/-- Claim C5, counterexample: with the valid configuration
`(chunk_size=2, chunk_overlap=1)` and the (legal, adversarial) tokenizer
`tkC5x`, `chunk("ab")` returns a second chunk with `start_index = -3`:
offsets are neither non-negative nor non-decreasing for every tokenizer. -/
theorem claim_C5_counterexample :
    Config.Valid ⟨2, 1⟩ ∧
    chunk ⟨2, 1⟩ tkC5x ['a', 'b'] = [⟨[], 0, 0, 2⟩, ⟨['x', 'y', 'z'], -3, 0, 1⟩] ∧
    ¬ (0 : Int) ≤ -3 := by
  exact ⟨by decide, by decide, by decide⟩

/-- Claim C5 (amended): for every valid configuration, tokenizer and text,
every chunk of `chunk(text)` satisfies
`end_index - start_index == len(text-of-chunk)` and
`start_index <= end_index`; and under the additional hypothesis that each
token group's decoded overlap suffix is no longer than its decoded text
(which holds for well-behaved tokenizers, and vacuously when
`chunk_overlap == 0`), all `start_index` are non-negative and the chunks are
in non-decreasing `start_index` order. -/
theorem claim_C5_offsets (cfg : Config) (tk : Tokenizer) (text : List Char)
    (hv : cfg.Valid) :
    (∀ c ∈ chunk cfg tk text,
        c.endIndex - c.startIndex = (c.text.length : Int) ∧ c.startIndex ≤ c.endIndex) ∧
    ((∀ g ∈ tokenGroupGenerator cfg (tk.encode text),
        (tk.decode (overlapSlice cfg g)).length ≤ (tk.decode g).length) →
      (∀ c ∈ chunk cfg tk text, 0 ≤ c.startIndex) ∧
      List.Chain' (fun a b => a.startIndex ≤ b.startIndex) (chunk cfg tk text)) := by
  rw [chunk_eq]
  by_cases hs : pyStrip text = []
  · rw [if_pos hs]
    simp
  · rw [if_neg hs]
    constructor
    · intro c hc
      simp only [createChunks] at hc
      exact createChunksLoop_span _ _ _ _ c hc
    · intro hov
      simp only [createChunks]
      by_cases hpos : cfg.chunkOverlap > 0
      · rw [if_pos hpos]
        have hf := forall₂_map_pair (fun (t : List Char) (ov : Nat) => ov ≤ t.length)
          tk.decode (fun g => (tk.decode (overlapSlice cfg g)).length)
          (tokenGroupGenerator cfg (tk.encode text)) (fun g hg => hov g hg)
        exact createChunksLoop_mono _ _ _ 0 hf
      · rw [if_neg hpos]
        have hlen : (tokenGroupGenerator cfg (tk.encode text)).length =
            ((tokenGroupGenerator cfg (tk.encode text)).map tk.decode).length :=
          (List.length_map _ _).symm
        rw [hlen]
        exact createChunksLoop_mono _ _ _ 0
          (forall₂_replicate_zero ((tokenGroupGenerator cfg (tk.encode text)).map tk.decode))

/-- Claim C5 witness: with a length-preserving tokenizer the second chunk of
`chunk("q")` has a non-negative start index, via the amended theorem. -/
theorem claim_C5_witness : (0 : Int) ≤ (⟨['z'], 1, 2, 1⟩ : Chunk).startIndex :=
  ((claim_C5_offsets ⟨2, 1⟩ tkC5w ['q'] (by decide)).2 (by decide)).1
    ⟨['z'], 1, 2, 1⟩ (by decide)

/-- Claim C6: for every configuration and tokenizer, an input text that is
empty or consists only of whitespace yields an empty chunk sequence from
`chunk`, with zero tokenizer invocations. -/
theorem claim_C6_whitespace_no_calls (cfg : Config) (tk : Tokenizer)
    (text : List Char) (h : ∀ c ∈ text, isPySpace c = true) :
    chunk cfg tk text = [] ∧ (chunkWithCallCount cfg tk text).2 = 0 := by
  have hs : pyStrip text = [] := pyStrip_eq_nil text h
  unfold chunk chunkWithCallCount
  rw [if_pos hs]
  exact ⟨rfl, rfl⟩

/-- Claim C6 witness: the single-space text. -/
theorem claim_C6_witness :
    chunk ⟨1, 0⟩ tkC6w [' '] = [] ∧ (chunkWithCallCount ⟨1, 0⟩ tkC6w [' ']).2 = 0 :=
  claim_C6_whitespace_no_calls ⟨1, 0⟩ tkC6w [' '] (by decide)

/-- Claim C7: when the configured `chunk_overlap` is 0, consecutive chunks
produced by `chunk` (the Strategy A path) are character-contiguous:
each chunk's `start_index` equals its predecessor's `end_index`. -/
theorem claim_C7_zero_overlap_contiguous (cfg : Config) (tk : Tokenizer)
    (text : List Char) (hv : cfg.Valid) (hov : cfg.chunkOverlap = 0) :
    List.Chain' (fun a b => b.startIndex = a.endIndex) (chunk cfg tk text) := by
  rw [chunk_eq]
  by_cases hs : pyStrip text = []
  · rw [if_pos hs]
    simp
  · rw [if_neg hs]
    simp only [createChunks]
    rw [if_neg (by omega : ¬ cfg.chunkOverlap > 0)]
    exact createChunksLoop_contig _ _ _ _

/-- Claim C7 witness: a two-chunk run with `chunk_overlap = 0` is
contiguous. -/
theorem claim_C7_witness :
    List.Chain' (fun a b => b.startIndex = a.endIndex) (chunk ⟨1, 0⟩ tkC7w ['a', 'b']) :=
  claim_C7_zero_overlap_contiguous ⟨1, 0⟩ tkC7w ['a', 'b'] (by decide) (by decide)

/-- Claim C8: for every list of texts and every positive `batch_size`,
`chunk_batch(texts, batch_size)` equals `chunk_batch(texts)` with no
`batch_size` — partitioning into contiguous sub-batches of at most
`batch_size` and concatenating does not change the output — and the result
has one inner chunk sequence per input text. -/
theorem claim_C8_batch_size_irrelevant (cfg : Config) (tk : Tokenizer)
    (texts : List (List Char)) (b : Int) (hb : 1 ≤ b) :
    chunkBatch cfg tk texts (some b) = chunkBatch cfg tk texts none ∧
    (chunkBatch cfg tk texts (some b)).length = texts.length := by
  have hbn : 0 < b.toNat := by omega
  have hmain : chunkBatch cfg tk texts (some b) = chunkBatch cfg tk texts none := by
    show ((pyRangeStep texts.length b.toNat).map
        (fun i => processTextBatch cfg tk
          ((texts.drop i).take (min (i + b.toNat) texts.length - i)))).flatten =
      processTextBatch cfg tk texts
    simp only [processTextBatch, List.map_map]
    have hcomp : (fun i => ((texts.drop i).take (min (i + b.toNat) texts.length - i)).map
        (processTokens cfg tk ∘ tk.encode)) =
        (List.map (processTokens cfg tk ∘ tk.encode)) ∘
          (fun i => (texts.drop i).take (min (i + b.toNat) texts.length - i)) := rfl
    rw [hcomp, ← List.map_map, ← List.map_flatten,
      pyRangeStep_slices b.toNat hbn texts.length texts rfl]
  refine ⟨hmain, ?_⟩
  rw [hmain]
  show (processTextBatch cfg tk texts).length = texts.length
  simp [processTextBatch]

/-- Claim C8 witness: two texts with `batch_size = 1`. -/
theorem claim_C8_witness :
    chunkBatch ⟨1, 0⟩ tkC8w [['a'], ['b']] (some 1) =
      chunkBatch ⟨1, 0⟩ tkC8w [['a'], ['b']] none ∧
    (chunkBatch ⟨1, 0⟩ tkC8w [['a'], ['b']] (some 1)).length = 2 :=
  claim_C8_batch_size_irrelevant ⟨1, 0⟩ tkC8w [['a'], ['b']] 1 (by decide)

/-- Claim C9: for every valid configuration, tokenizer and text, whenever
`chunk(text)` returns a non-empty sequence, the first chunk's `start_index`
is 0: the Strategy A cursor starts at 0 and is never adjusted to where the
decoded text actually occurs. -/
theorem claim_C9_first_start_zero (cfg : Config) (tk : Tokenizer)
    (text : List Char) (hv : cfg.Valid) (c : Chunk) (rest : List Chunk)
    (h : chunk cfg tk text = c :: rest) : c.startIndex = 0 := by
  rw [chunk_eq] at h
  by_cases hs : pyStrip text = []
  · rw [if_pos hs] at h
    exact absurd h (by simp)
  · rw [if_neg hs] at h
    simp only [createChunks] at h
    exact createChunksLoop_head_start _ _ _ _ _ _ h

/-- Claim C9 witness: a concrete one-chunk run starts at 0. -/
theorem claim_C9_witness : (⟨['a'], 0, 1, 1⟩ : Chunk).startIndex = 0 :=
  claim_C9_first_start_zero ⟨1, 0⟩ tkC9w ['a'] (by decide) ⟨['a'], 0, 1, 1⟩ [] (by decide)

/-- Claim C10: `chunk_batch` applies no whitespace-only filter: for every
valid configuration and tokenizer, a text's inner result is empty exactly
when its encoded token sequence is empty; and concretely, for the
whitespace-only text `" "` whose tokenization under `tkC10x` is non-empty,
`chunk(" ")` is empty while `chunk_batch([" "])` returns a non-empty inner
chunk sequence. -/
theorem claim_C10_no_whitespace_filter :
    (∀ (cfg : Config) (tk : Tokenizer) (texts : List (List Char)), cfg.Valid →
      List.Forall₂ (fun t r => r = [] ↔ tk.encode t = []) texts
        (chunkBatch cfg tk texts none)) ∧
    (chunk ⟨1, 0⟩ tkC10x [' '] = [] ∧
      chunkBatch ⟨1, 0⟩ tkC10x [[' ']] none = [[⟨[' '], 0, 1, 1⟩]]) := by
  constructor
  · intro cfg tk texts hv
    have heq : chunkBatch cfg tk texts none =
        texts.map (fun t => processTokens cfg tk (tk.encode t)) := by
      show (texts.map tk.encode).map (processTokens cfg tk) = _
      rw [List.map_map]
      rfl
    rw [heq]
    apply forall₂_map_right
    intro t ht
    show processTokens cfg tk (tk.encode t) = [] ↔ tk.encode t = []
    constructor
    · intro hr
      by_contra hne
      exact processTokens_ne_nil cfg tk hv (tk.encode t) hne hr
    · intro hr
      unfold processTokens
      rw [if_pos hr]
  · exact ⟨by decide, by decide⟩

/-- Claim C10 witness: the universal part instantiated at the concrete
whitespace-only batch. -/
theorem claim_C10_witness :
    List.Forall₂ (fun t r => r = [] ↔ tkC10x.encode t = []) [[' ']]
      (chunkBatch ⟨1, 0⟩ tkC10x [[' ']] none) :=
  (claim_C10_no_whitespace_filter).1 ⟨1, 0⟩ tkC10x [[' ']] (by decide)

end TokenChunkerModel
